import Mathlib

/-!
Shallow embedding of the `primitive_db` record store
(`src/primitive_db/core.py`, `parser.py`, `decorators.py`, `engine.py`).

Scalar values are one of the three supported kinds (integer, text, boolean);
Python's `bool` is a subtype of `int`, which the source code distinguishes via
`isinstance(value, bool)` checks, so the embedding keeps the kinds disjoint and
models Python `==` (which identifies `True`/`1` and `False`/`0`) separately.
Python dicts are modelled as association lists where a later binding for a key
overrides an earlier one (the lists arising from real dicts are duplicate-free,
on which this coincides with dict semantics).  Functions that raise `ValueError`
are modelled with `Except String` carrying the source's message text, matching
the `handle_db_errors` boundary that catches them.  Strings are assumed ASCII
(they come from the CLI tokenizer); `str.lower`/`str.strip`/`int()` are modelled
on that domain.
-/

namespace PDb

/-- Scalar value kinds of the store: integer, text, boolean. -/
inductive Value where
  | vInt (n : Int)
  | vStr (s : String)
  | vBool (b : Bool)
deriving DecidableEq

/-- A row, as the Python dict mapping column name to scalar value. -/
abbrev Row := List (String × Value)

/-- A declared column: `{"name": ..., "type": ...}` with the type tag string. -/
structure Column where
  name : String
  type : String
deriving DecidableEq

/-- The schema catalog: table name to its `columns` list. -/
abbrev Metadata := List (String × List Column)

/-- Python dict lookup on an association list: a later binding for the key
overrides an earlier one (as successive dict assignments do). -/
def dictLookup : List (String × α) → String → Option α
  | [], _ => none
  | kv :: rest, k =>
    match dictLookup rest k with
    | some v => some v
    | none => if kv.1 = k then some kv.2 else none

/-- Python dict assignment `d[k] = v`: replace the binding in place when the
key is present (the first occurrence — the only one, for the duplicate-free
lists a dict yields), otherwise append the new binding at the end. -/
def dictInsert : List (String × α) → String → α → List (String × α)
  | [], k, v => [(k, v)]
  | kv :: rest, k, v =>
    if kv.1 = k then (k, v) :: rest else kv :: dictInsert rest k v

/-- Folding dict assignments of `entries` into `base`, as `{**base, **entries}`
or a loop of assignments builds a dict. -/
def dictMerge (base : List (String × α)) (entries : List (String × α)) :
    List (String × α) :=
  entries.foldl (fun acc kv => dictInsert acc kv.1 kv.2) base

/-- Characters stripped by Python `str.strip()` (ASCII whitespace). -/
def isPySpace (c : Char) : Bool :=
  c = ' ' || c = '\t' || c = '\n' || c = '\r' || c = '\x0b' || c = '\x0c'

/-- Python `str.strip()` on a character list. -/
def pyStripChars (cs : List Char) : List Char :=
  ((cs.dropWhile isPySpace).reverse.dropWhile isPySpace).reverse

/-- Python `str.strip()`. -/
def pyStripS (s : String) : String :=
  String.mk (pyStripChars s.toList)

/-- Python `str.lower()` on one character (ASCII domain). -/
def pyLowerChar (c : Char) : Char :=
  if 'A' ≤ c && c ≤ 'Z' then Char.ofNat (c.toNat + 32) else c

/-- Python `str.lower()` (ASCII domain). -/
def pyLower (s : String) : String :=
  String.mk (s.toList.map pyLowerChar)

/-- Python `str.upper()` on one character (ASCII domain). -/
def pyUpperChar (c : Char) : Char :=
  if 'a' ≤ c && c ≤ 'z' then Char.ofNat (c.toNat - 32) else c

/-- Python `str.upper()` (ASCII domain). -/
def pyUpper (s : String) : String :=
  String.mk (s.toList.map pyUpperChar)

/-- A maximal run decomposition on `'_'`: splits a character list into the
groups separated by underscores (no group drops; empty groups witness leading,
trailing or doubled underscores). -/
def digitGroups : List Char → List (List Char)
  | [] => [[]]
  | c :: rest =>
    if c = '_' then [] :: digitGroups rest
    else
      match digitGroups rest with
      | [] => [[c]]
      | g :: gs => (c :: g) :: gs

/-- Python `int(text)` digit-part validity: after sign removal the remainder
must consist of one or more digit groups separated by single underscores
(CPython allows `_` only between digits). -/
def pyIntDigitsOk (core : List Char) : Bool :=
  (digitGroups core).all (fun g => !g.isEmpty && g.all Char.isDigit)

/-- Numeric value of a digit-with-underscores run (underscores ignored). -/
def digitsVal (core : List Char) : Int :=
  core.foldl (fun acc c => if c = '_' then acc else 10 * acc + (c.toNat - '0'.toNat : Nat)) 0

/-- Python `int(text)` for base-10 text input: strip surrounding whitespace,
allow one optional `+`/`-` sign, then require a valid digit run; `none` models
the `ValueError` raised otherwise. -/
def pyIntOfString (s : String) : Option Int :=
  match pyStripChars s.toList with
  | [] => none
  | c :: rest =>
    if c = '+' then
      if pyIntDigitsOk rest then some (digitsVal rest) else none
    else if c = '-' then
      if pyIntDigitsOk rest then some (-digitsVal rest) else none
    else if pyIntDigitsOk (c :: rest) then some (digitsVal (c :: rest)) else none

/-- Embedding of `_coerce_value` (core.py): convert a value to the expected
column type tag, `none` modelling the raised `ValueError`.  The `int` branch
rejects booleans first (mirroring the `isinstance(value, bool)` guard), and
parses text via Python `int()`; the `str` branch accepts only text; the `bool`
branch accepts booleans and the case-insensitive texts `true`/`false`. -/
def _coerce_value (value : Value) (expected_type : String) : Option Value :=
  if expected_type = "int" then
    match value with
    | .vBool _ => none
    | .vInt n => some (.vInt n)
    | .vStr s => (pyIntOfString s).map .vInt
  else if expected_type = "str" then
    match value with
    | .vStr s => some (.vStr s)
    | _ => none
  else if expected_type = "bool" then
    match value with
    | .vBool b => some (.vBool b)
    | .vStr s =>
      let lowered := pyLower s
      if lowered = "true" then some (.vBool true)
      else if lowered = "false" then some (.vBool false)
      else none
    | _ => none
  else none

/-- Python `==` on scalar values: type-aware except that booleans compare equal
to the integers `1`/`0` (Python's `bool` is an `int` subtype). -/
def pyEq : Value → Value → Bool
  | .vInt a, .vInt b => a = b
  | .vStr a, .vStr b => a = b
  | .vBool a, .vBool b => a = b
  | .vInt a, .vBool b => a = (if b then (1 : Int) else 0)
  | .vBool a, .vInt b => (if a then (1 : Int) else 0) = b
  | _, _ => false

/-- Python `str(value)` as used by the f-string error messages. -/
def pyStr : Value → String
  | .vInt n => toString n
  | .vStr s => s
  | .vBool b => if b then "True" else "False"

/-- The type tag a stored value actually carries. -/
def typeOfValue : Value → String
  | .vInt _ => "int"
  | .vStr _ => "str"
  | .vBool _ => "bool"

/-- The `row.get(column) == value` test used by select/update/delete: a missing
key yields Python `None`, which equals no scalar. -/
def pyMatch (row : Row) (column : String) (value : Value) : Bool :=
  match dictLookup row column with
  | some w => pyEq w value
  | none => false

/-- The `row["ID"]` read, specialised to well-formed rows whose `ID` holds an
integer (every row built by `insert` does); the fallback value is irrelevant
for such rows. -/
def rowID (row : Row) : Int :=
  match dictLookup row "ID" with
  | some (.vInt n) => n
  | _ => 0

/-- Embedding of `_column_types` (core.py): the dict comprehension
`{column["name"]: column["type"] for column in ...}` as an association list
(`dictLookup`'s later-binding-wins matches dict comprehension override). -/
def _column_types (columns : List Column) : List (String × String) :=
  columns.map (fun column => (column.name, column.type))

/-- The error message raised by `_ensure_table_exists` (core.py). -/
def tableMissingMsg (table_name : String) : String :=
  "Таблица \"" ++ table_name ++ "\" не существует."

/-- The unknown-column error message (core.py). -/
def unknownColumnMsg : String :=
  "Некорректное значение: неизвестный столбец. Попробуйте снова."

/-- The coercion-failure error message of the clause operations (core.py). -/
def typeErrorMsg : String :=
  "Некорректное значение: ошибка типов. Попробуйте снова."

/-- The per-raw-column error message of `_parse_columns` (core.py). -/
def badColumnMsg (raw_column : String) : String :=
  "Некорректное значение: " ++ raw_column ++ ". Попробуйте снова."

/-- Python `raw_column.split(":", 1)`: `none` when no colon occurs, otherwise
the parts before and after the first colon. -/
def splitOnceColon : List Char → Option (List Char × List Char)
  | [] => none
  | c :: rest =>
    if c = ':' then some ([], rest)
    else (splitOnceColon rest).map (fun p => (c :: p.1, p.2))

/-- The loop body of `_parse_columns` (core.py), with the `used_names`
accumulator made explicit: validate each `name:type` token in order, rejecting
a missing colon, a blank name, a name upper-casing to `ID`, a name already
used, or a type outside `{int, str, bool}`. -/
def parseColumnsAux : List String → List String → Except String (List Column)
  | [], _ => .ok []
  | raw_column :: rest, used_names =>
    match splitOnceColon raw_column.toList with
    | none => .error (badColumnMsg raw_column)
    | some (n, t) =>
      let column_name := pyStripS (String.mk n)
      let column_type := pyStripS (String.mk t)
      if column_name = "" ∨ pyUpper column_name = "ID" then
        .error (badColumnMsg raw_column)
      else if column_name ∈ used_names ∨
          ¬(column_type = "int" ∨ column_type = "str" ∨ column_type = "bool") then
        .error (badColumnMsg raw_column)
      else
        match parseColumnsAux rest (column_name :: used_names) with
        | .error msg => .error msg
        | .ok parsed => .ok (⟨column_name, column_type⟩ :: parsed)

/-- Embedding of `_parse_columns` (core.py): `used_names` starts as `{"ID"}`. -/
def _parse_columns (raw_columns : List String) : Except String (List Column) :=
  parseColumnsAux raw_columns ["ID"]

/-- Embedding of `create_table` (core.py): reject an existing name or an empty
column list, parse the raw columns, and store `[ID:int, ...parsed]`. -/
def create_table (metadata : Metadata) (table_name : String)
    (columns : List String) : Except String Metadata :=
  if (dictLookup metadata table_name).isSome then
    .error ("Таблица \"" ++ table_name ++ "\" уже существует.")
  else if columns.isEmpty then
    .error "Некорректное значение: нет столбцов. Попробуйте снова."
  else
    match _parse_columns columns with
    | .error msg => .error msg
    | .ok parsed_columns =>
      .ok (dictInsert metadata table_name (⟨"ID", "int"⟩ :: parsed_columns))

/-- The record-building loop of `insert` (core.py): coerce each value against
its column in declaration order, raising on the first failure with a message
naming that value; `zip` semantics stop at the shorter list. -/
def coerceRecord : List Column → List Value → Row → Except String Row
  | [], _, record => .ok record
  | _, [], record => .ok record
  | column :: cols, value :: vals, record =>
    match _coerce_value value column.type with
    | none => .error ("Некорректное значение: " ++ pyStr value ++ ". Попробуйте снова.")
    | some v => coerceRecord cols vals (dictInsert record column.name v)

/-- Embedding of `max((row["ID"] for row in table_data), default=0)`. -/
def maxID : List Row → Int
  | [] => 0
  | row :: rest => rest.foldl (fun acc r => max acc (rowID r)) (rowID row)

/-- Embedding of `insert` (core.py): check the value count against the
user-declared columns (`columns[1:]`), coerce the values in order, then append
`{"ID": next_id, **record}` with `next_id = max(IDs, default 0) + 1`. -/
def insert (metadata : Metadata) (table_name : String) (values : List Value)
    (table_data : List Row) : Except String (List Row × Int) :=
  match dictLookup metadata table_name with
  | none => .error (tableMissingMsg table_name)
  | some columns =>
    let user_columns := columns.drop 1
    if values.length ≠ user_columns.length then
      .error "Некорректное значение: неверное количество значений."
    else
      match coerceRecord user_columns values [] with
      | .error msg => .error msg
      | .ok record =>
        let next_id := maxID table_data + 1
        let row := dictMerge [("ID", Value.vInt next_id)] record
        .ok (table_data ++ [row], next_id)

/-- Embedding of `select` (core.py): no predicate returns the data as is; a
(single-entry) predicate keeps the rows with `row.get(col) == value`. -/
def select (table_data : List Row) (where_clause : Option (String × Value)) :
    List Row :=
  match where_clause with
  | none => table_data
  | some (where_column, where_value) =>
    table_data.filter (fun row => pyMatch row where_column where_value)

/-- Embedding of `normalize_where_clause` (core.py): require the table and the
clause column, and coerce the clause value under the column's declared type. -/
def normalize_where_clause (metadata : Metadata) (table_name : String)
    (where_clause : String × Value) : Except String (String × Value) :=
  match dictLookup metadata table_name with
  | none => .error (tableMissingMsg table_name)
  | some table_meta =>
    let types := _column_types table_meta
    match dictLookup types where_clause.1 with
    | none => .error unknownColumnMsg
    | some ty =>
      match _coerce_value where_clause.2 ty with
      | none => .error typeErrorMsg
      | some v => .ok (where_clause.1, v)

/-- The row loop of `update` (core.py): rows matching the where clause get the
set column assigned and contribute their (post-assignment) `ID`. -/
def updateRows (where_column : String) (where_value : Value)
    (set_column : String) (set_value : Value) : List Row → List Row × List Int
  | [] => ([], [])
  | row :: rest =>
    let tail := updateRows where_column where_value set_column set_value rest
    if pyMatch row where_column where_value then
      let row2 := dictInsert row set_column set_value
      (row2 :: tail.1, rowID row2 :: tail.2)
    else
      (row :: tail.1, tail.2)

/-- Embedding of `update` (core.py): require the table and both clause columns,
reject `set ID`, coerce both clause values, then rewrite matching rows. -/
def update (metadata : Metadata) (table_name : String) (table_data : List Row)
    (set_clause : String × Value) (where_clause : String × Value) :
    Except String (List Row × List Int) :=
  match dictLookup metadata table_name with
  | none => .error (tableMissingMsg table_name)
  | some table_meta =>
    let types := _column_types table_meta
    match dictLookup types set_clause.1, dictLookup types where_clause.1 with
    | some set_type, some where_type =>
      if set_clause.1 = "ID" then
        .error "Некорректное значение: ID нельзя изменять. Попробуйте снова."
      else
        match _coerce_value set_clause.2 set_type,
            _coerce_value where_clause.2 where_type with
        | some normalized_set_value, some normalized_where_value =>
          .ok (updateRows where_clause.1 normalized_where_value
            set_clause.1 normalized_set_value table_data)
        | _, _ => .error typeErrorMsg
    | _, _ => .error unknownColumnMsg

/-- The row loop of `delete` (core.py): matching rows contribute their `ID` to
`deleted_ids`, the rest are kept in order. -/
def deleteRows (where_column : String) (where_value : Value) :
    List Row → List Row × List Int
  | [] => ([], [])
  | row :: rest =>
    let tail := deleteRows where_column where_value rest
    if pyMatch row where_column where_value then
      (tail.1, rowID row :: tail.2)
    else
      (row :: tail.1, tail.2)

/-- Embedding of `delete` (core.py): require the table and the where column,
coerce the where value, then split the rows into kept and deleted. -/
def delete (metadata : Metadata) (table_name : String) (table_data : List Row)
    (where_clause : String × Value) : Except String (List Row × List Int) :=
  match dictLookup metadata table_name with
  | none => .error (tableMissingMsg table_name)
  | some table_meta =>
    let types := _column_types table_meta
    match dictLookup types where_clause.1 with
    | none => .error unknownColumnMsg
    | some ty =>
      match _coerce_value where_clause.2 ty with
      | none => .error typeErrorMsg
      | some normalized_where_value =>
        .ok (deleteRows where_clause.1 normalized_where_value table_data)

/-- The character loop of `split_csv_values` (parser.py), with the
`values`/`current`/`in_quotes` state explicit: a quote is appended and toggles
the flag; an unquoted comma closes the current fragment (stripped); any other
character is appended. -/
def splitLoop : List Char → List String → List Char → Bool →
    List String × List Char × Bool
  | [], values, current, in_quotes => (values, current, in_quotes)
  | c :: rest, values, current, in_quotes =>
    if c = '"' then splitLoop rest values (current ++ [c]) (!in_quotes)
    else if c = ',' && !in_quotes then
      splitLoop rest (values ++ [pyStripS (String.mk current)]) [] in_quotes
    else splitLoop rest values (current ++ [c]) in_quotes

/-- The unbalanced-quote error message of `split_csv_values` (parser.py). -/
def unbalancedMsg : String :=
  "Некорректное значение: незакрытая кавычка. Попробуйте снова."

/-- The empty-fragment error message of `split_csv_values` (parser.py). -/
def emptyValueMsg : String :=
  "Некорректное значение: пустое значение. Попробуйте снова."

/-- Embedding of `split_csv_values` (parser.py): run the loop, reject an open
quote, append the final fragment only when `current` is non-empty, and reject
a zero-fragment result or any fragment that stripped to the empty string. -/
def split_csv_values (values_text : String) : Except String (List String) :=
  let st := splitLoop values_text.toList [] [] false
  if st.2.2 then .error unbalancedMsg
  else
    let values :=
      if st.2.1.isEmpty then st.1 else st.1 ++ [pyStripS (String.mk st.2.1)]
    if values.isEmpty || values.any (fun value => value = "") then
      .error emptyValueMsg
    else .ok values

/-- JSON string escaping as `json.dumps` with `ensure_ascii=False` renders
text: quote, backslash and control characters escaped, the rest verbatim. -/
def jsonEscapeChar (c : Char) : String :=
  if c = '"' then "\\\""
  else if c = '\\' then "\\\\"
  else if c = '\n' then "\\n"
  else if c = '\t' then "\\t"
  else if c = '\r' then "\\r"
  else if c.toNat < 32 then
    "\\u00" ++ String.mk [Char.ofNat (if c.toNat / 16 < 10 then 48 + c.toNat / 16 else 87 + c.toNat / 16),
      Char.ofNat (if c.toNat % 16 < 10 then 48 + c.toNat % 16 else 87 + c.toNat % 16)]
  else String.mk [c]

/-- JSON rendering of a text value. -/
def jsonString (s : String) : String :=
  "\"" ++ s.toList.foldl (fun acc c => acc ++ jsonEscapeChar c) "" ++ "\""

/-- Joining with a separator, as `", ".join(...)` inside `json.dumps`. -/
def strJoin (sep : String) : List String → String
  | [] => ""
  | [x] => x
  | x :: xs => x ++ sep ++ strJoin sep xs

/-- JSON rendering of a scalar value, as `json.dumps` renders it. -/
def dumpsValue : Value → String
  | .vInt n => toString n
  | .vStr s => jsonString s
  | .vBool b => if b then "true" else "false"

/-- Insertion of a key into a sorted key list (stand-in for `sort_keys=True`). -/
def insertSorted (k : String) : List String → List String
  | [] => [k]
  | x :: xs => if k ≤ x then k :: x :: xs else x :: insertSorted k xs

/-- The distinct keys of a row in sorted order, as `json.dumps` with
`sort_keys=True` emits a dict's keys. -/
def sortedKeys (row : Row) : List String :=
  ((row.map Prod.fst).foldl (fun acc k => if acc.contains k then acc else acc ++ [k]) []).foldr
    insertSorted []

/-- JSON rendering of one row, as `json.dumps(..., sort_keys=True)`. -/
def dumpsRow (row : Row) : String :=
  "\x7b" ++ strJoin ", "
    ((sortedKeys row).map (fun k =>
      jsonString k ++ ": " ++ dumpsValue ((dictLookup row k).getD (.vInt 0)))) ++ "\x7d"

/-- The dataset fingerprint of the select cache key (engine.py):
`dumps(table_data, sort_keys=True, ensure_ascii=False)`. -/
def dumpsData (table_data : List Row) : String :=
  "[" ++ strJoin ", " (table_data.map dumpsRow) ++ "]"

/-- The normalized-predicate serialization of the select cache key (engine.py):
`dumps(where_clause, ...)`, where an absent clause dumps as `null`. -/
def dumpsWhere : Option (String × Value) → String
  | none => "null"
  | some (c, v) => "\x7b" ++ jsonString c ++ ": " ++ dumpsValue v ++ "\x7d"

/-- A select-cache key: table name, predicate serialization, fingerprint. -/
abbrev CacheKey := String × String × String

/-- Cache lookup with structural key equality, as `key in cache` on the
closure dict of `create_cacher` (decorators.py). -/
def cacheLookup : List (CacheKey × List Row) → CacheKey → Option (List Row)
  | [], _ => none
  | kv :: rest, k => if kv.1 = k then some kv.2 else cacheLookup rest k

/-- Embedding of the closure returned by `create_cacher` (decorators.py): a hit
returns the stored value and leaves the cache alone; a miss computes the value,
stores it and returns it. -/
def cache_result (cache : List (CacheKey × List Row)) (key : CacheKey)
    (value_func : Unit → List Row) : List (CacheKey × List Row) × List Row :=
  match cacheLookup cache key with
  | some value => (cache, value)
  | none =>
    let value := value_func ()
    (cache ++ [(key, value)], value)

/-- The select path of `run` (engine.py, lines 212-218): build the cache key
from the table name, the dumped normalized where clause and the dumped table
data, then consult the cache with `select` as the compute function. -/
def cachedSelect (cache : List (CacheKey × List Row)) (table_name : String)
    (where_clause : Option (String × Value)) (table_data : List Row) :
    List (CacheKey × List Row) × List Row :=
  let cache_key : CacheKey :=
    (table_name, dumpsWhere where_clause, dumpsData table_data)
  cache_result cache cache_key (fun _ => select table_data where_clause)

instance [DecidableEq ε] [DecidableEq α] : DecidableEq (Except ε α) := fun x y =>
  match x, y with
  | .error a, .error b => if h : a = b then isTrue (by simp [h]) else isFalse (by simp [h])
  | .ok a, .ok b => if h : a = b then isTrue (by simp [h]) else isFalse (by simp [h])
  | .error _, .ok _ => isFalse (by simp)
  | .ok _, .error _ => isFalse (by simp)

/-- Success test for `Except` results. -/
def exceptIsOk : Except String α → Bool
  | .ok _ => true
  | .error _ => false

/-- Spec-side reading of "a text that parses fully as a base-10 integer": an
optional sign followed by one or more decimal digits and nothing else. -/
def isBase10IntText (s : String) : Bool :=
  match s.toList with
  | [] => false
  | c :: rest =>
    if c = '+' || c = '-' then !rest.isEmpty && rest.all Char.isDigit
    else (c :: rest).all Char.isDigit

/-- Concatenation of character groups with single `'_'` separators. -/
def joinGroups : List (List Char) → List Char
  | [] => []
  | [g] => g
  | g :: gs => g ++ '_' :: joinGroups gs

/-- Amended spec-side acceptance for coercing text to `Int`: after stripping
surrounding whitespace, an optional single `+`/`-` sign followed by one or more
groups of one or more decimal digits separated by single underscores. -/
def AmendedIntText (s : String) : Prop :=
  ∃ sign ds, (sign = ([] : List Char) ∨ sign = ['+'] ∨ sign = ['-']) ∧
    ds ≠ [] ∧ (∀ g ∈ ds, g ≠ [] ∧ g.all Char.isDigit) ∧
    pyStripChars s.toList = sign ++ joinGroups ds

/-- Spec-side parse of one raw column token: the `name:type` pair split at the
first colon, both sides trimmed. -/
def rawColumnSpec (raw_column : String) : Option Column :=
  match splitOnceColon raw_column.toList with
  | none => none
  | some (n, t) => some ⟨pyStripS (String.mk n), pyStripS (String.mk t)⟩

/-- Spec-side well-formedness of one raw column token: it splits as
`name:type`, the name is non-blank and is not `ID` in any casing, and the type
tag is one of the allowed three. -/
def wellFormedRaw (raw_column : String) : Bool :=
  match rawColumnSpec raw_column with
  | none => false
  | some col =>
    col.name ≠ "" && pyUpper col.name ≠ "ID" &&
      (col.type = "int" || col.type = "str" || col.type = "bool")

/-- Spec-side splitter for comma-separated fragments: the first field and the
later fields of the text, split on commas outside double-quote pairs (quotes
toggle the flag and stay part of the field). -/
def splitFieldsP : List Char → Bool → List Char × List (List Char)
  | [], _ => ([], [])
  | c :: rest, in_quotes =>
    if c = '"' then
      let p := splitFieldsP rest (!in_quotes)
      (c :: p.1, p.2)
    else if c = ',' && !in_quotes then
      let p := splitFieldsP rest in_quotes
      ([], p.1 :: p.2)
    else
      let p := splitFieldsP rest in_quotes
      (c :: p.1, p.2)

/-- All but the last field, stripped, together with the raw last field. -/
def finishFields : List Char → List (List Char) → List String × List Char
  | f, [] => ([], f)
  | f, g :: gs =>
    let p := finishFields g gs
    (pyStripS (String.mk f) :: p.1, p.2)

/-- Whether the quoting of the text is left unbalanced at end of input. -/
def unbalancedQuotes (s : String) : Bool :=
  s.toList.foldl (fun q c => if c = '"' then !q else q) false

/-- The fragments `split_csv_values` keeps, described from the spec side: all
fields stripped, except that a last field with no characters at all (the
aftermath of a trailing comma) is dropped. -/
def specKept (s : String) : List String :=
  let p := splitFieldsP s.toList false
  let q := finishFields p.1 p.2
  if q.2.isEmpty then q.1 else q.1 ++ [pyStripS (String.mk q.2)]

/-- The claim's failure condition for `split_csv_values`, read literally:
unbalanced quoting, zero fragments, or some fragment of the plain unquoted
comma split (the trailing-comma empty fragment included) trims to empty. -/
def claimSplitFails (s : String) : Bool :=
  let p := splitFieldsP s.toList false
  let fragments := (p.1 :: p.2).map (fun f => pyStripS (String.mk f))
  unbalancedQuotes s || fragments.isEmpty || fragments.any (fun v => v = "")

/-- Spec-side elementwise coercion of a value list against the corresponding
columns, in declaration order; succeeds exactly when the lengths agree and
every value coerces. -/
def coerceValues : List Column → List Value → Option (List Value)
  | [], [] => some []
  | column :: cols, value :: vals =>
    match _coerce_value value column.type with
    | none => none
    | some v => (coerceValues cols vals).map (v :: ·)
  | _, _ => none

/-- A row is well-typed for a column-type map when each of its entries whose
key is a declared column holds a value of the declared type (the spec's data
model invariant: stored values match their column's declared type). -/
def wellTypedRow (types : List (String × String)) (row : Row) : Bool :=
  row.all (fun kv =>
    match dictLookup types kv.1 with
    | some ty => typeOfValue kv.2 = ty
    | none => true)

/-- Table data is well-typed when every row is. -/
def wellTypedData (types : List (String × String)) (table_data : List Row) : Bool :=
  table_data.all (wellTypedRow types)

/-- Structural (type-aware) row match, as the spec describes select/delete:
the row's value for the column is exactly the given scalar. -/
def matchesP (column : String) (value : Value) (row : Row) : Bool :=
  decide (dictLookup row column = some value)

example : _coerce_value (.vStr "5") "int" = some (.vInt 5) := by decide
example : _coerce_value (.vStr " 5") "int" = some (.vInt 5) := by decide
example : _coerce_value (.vStr "5_0") "int" = some (.vInt 50) := by decide
example : _coerce_value (.vStr "_5") "int" = none := by decide
example : _coerce_value (.vStr "5_") "int" = none := by decide
example : _coerce_value (.vStr "-12") "int" = some (.vInt (-12)) := by decide
example : _coerce_value (.vStr "+") "int" = none := by decide
example : _coerce_value (.vBool true) "int" = none := by decide
example : _coerce_value (.vInt 5) "str" = none := by decide
example : _coerce_value (.vStr "FALSE") "bool" = some (.vBool false) := by decide
example : split_csv_values "a," = .ok ["a"] := by decide
example : split_csv_values "a, " = .error emptyValueMsg := by decide
example : split_csv_values ",a" = .error emptyValueMsg := by decide
example : split_csv_values "\"a,b\", c" = .ok ["\"a,b\"", "c"] := by decide
example : split_csv_values "\"a" = .error unbalancedMsg := by decide
example : split_csv_values "" = .error emptyValueMsg := by decide
example :
    create_table [] "users" ["name:str", "age:int"] =
      .ok [("users", [⟨"ID", "int"⟩, ⟨"name", "str"⟩, ⟨"age", "int"⟩])] := by decide
example :
    insert [("users", [⟨"ID", "int"⟩, ⟨"age", "int"⟩])] "users"
      [.vStr "30"] [[("ID", .vInt 1), ("age", .vInt 7)]] =
    .ok ([[("ID", .vInt 1), ("age", .vInt 7)],
      [("ID", .vInt 2), ("age", .vInt 30)]], 2) := by decide
example :
    update [("users", [⟨"ID", "int"⟩, ⟨"age", "int"⟩])] "users"
      [[("ID", .vInt 1), ("age", .vInt 7)]] ("ID", .vInt 5) ("age", .vInt 7) =
    .error "Некорректное значение: ID нельзя изменять. Попробуйте снова." := by decide
example :
    delete [("users", [⟨"ID", "int"⟩, ⟨"age", "int"⟩])] "users"
      [[("ID", .vInt 1), ("age", .vInt 7)], [("ID", .vInt 2), ("age", .vInt 8)]]
      ("age", .vStr "7") =
    .ok ([[("ID", .vInt 2), ("age", .vInt 8)]], [1]) := by decide

theorem dictLookup_insert_ne (l : List (String × α)) (k c : String) (v : α)
    (h : c ≠ k) : dictLookup (dictInsert l k v) c = dictLookup l c := by
  have hkc : ¬k = c := fun e => h e.symm
  induction l with
  | nil => simp [dictInsert, dictLookup, hkc]
  | cons kv rest ih =>
    by_cases hk : kv.1 = k
    · simp only [dictInsert, if_pos hk, dictLookup, ih]
      cases dictLookup rest c <;> simp [hkc, hk]
    · simp only [dictInsert, if_neg hk, dictLookup, ih]

theorem dictLookup_mem {l : List (String × α)} {k : String} {v : α}
    (h : dictLookup l k = some v) : (k, v) ∈ l := by
  induction l with
  | nil => simp [dictLookup] at h
  | cons kv rest ih =>
    simp only [dictLookup] at h
    cases hr : dictLookup rest k with
    | some w =>
      rw [hr] at h
      cases h
      exact List.mem_cons_of_mem _ (ih hr)
    | none =>
      rw [hr] at h
      by_cases hk : kv.1 = k
      · rw [if_pos hk] at h
        cases h
        subst hk
        exact List.mem_cons.mpr (Or.inl rfl)
      · rw [if_neg hk] at h
        cases h

theorem dictLookup_eq_none_iff (l : List (String × α)) (k : String) :
    dictLookup l k = none ↔ ∀ kv ∈ l, kv.1 ≠ k := by
  induction l with
  | nil => simp [dictLookup]
  | cons kv rest ih =>
    simp only [dictLookup]
    cases hr : dictLookup rest k with
    | some v =>
      apply iff_of_false
      · simp
      · intro hall
        exact hall (k, v) (List.mem_cons_of_mem _ (dictLookup_mem hr)) rfl
    | none =>
      by_cases hk : kv.1 = k
      · apply iff_of_false
        · simp [hk]
        · intro hall
          exact hall kv (List.mem_cons_self _ _) hk
      · apply iff_of_true
        · simp [hk]
        · intro kv' hmem
          rcases List.mem_cons.mp hmem with h1 | h2
          · rw [h1]; exact hk
          · exact (ih.mp hr) kv' h2

theorem dictLookup_append_right_none {l2 : List (String × α)} {k : String}
    (l1 : List (String × α)) (h : dictLookup l2 k = none) :
    dictLookup (l1 ++ l2) k = dictLookup l1 k := by
  induction l1 with
  | nil => simp [dictLookup, h]
  | cons kv rest ih =>
    have hc : (kv :: rest) ++ l2 = kv :: (rest ++ l2) := rfl
    rw [hc]
    simp only [dictLookup]
    rw [ih]

theorem dictLookup_append_right_some {l2 : List (String × α)} {k : String} {v : α}
    (l1 : List (String × α)) (h : dictLookup l2 k = some v) :
    dictLookup (l1 ++ l2) k = some v := by
  induction l1 with
  | nil => simpa [dictLookup] using h
  | cons kv rest ih =>
    have hc : (kv :: rest) ++ l2 = kv :: (rest ++ l2) := rfl
    rw [hc]
    simp only [dictLookup]
    rw [ih]

theorem dictInsert_of_not_mem {l : List (String × α)} {k : String} (v : α)
    (h : dictLookup l k = none) : dictInsert l k v = l ++ [(k, v)] := by
  induction l with
  | nil => simp [dictInsert]
  | cons kv rest ih =>
    simp only [dictLookup] at h
    cases hr : dictLookup rest k with
    | some w => rw [hr] at h; cases h
    | none =>
      rw [hr] at h
      by_cases hk : kv.1 = k
      · rw [if_pos hk] at h; cases h
      · simp only [dictInsert, if_neg hk, List.cons_append, List.cons.injEq,
          true_and]
        exact ih hr

theorem dictMerge_eq_append :
    ∀ (entries base : List (String × α)),
      (∀ kv ∈ entries, dictLookup base kv.1 = none) →
      (entries.map Prod.fst).Nodup →
      dictMerge base entries = base ++ entries := by
  intro entries
  induction entries with
  | nil => intro base _ _; simp [dictMerge]
  | cons kv rest ih =>
    intro base hdisj hnd
    have hbase : dictLookup base kv.1 = none := hdisj kv (List.mem_cons_self _ _)
    have hstep : dictInsert base kv.1 kv.2 = base ++ [kv] := by
      rw [dictInsert_of_not_mem kv.2 hbase]
    have hrest : ∀ kv' ∈ rest, dictLookup (base ++ [kv]) kv'.1 = none := by
      intro kv' hmem
      have hne : kv.1 ≠ kv'.1 := by
        intro he
        have : kv.1 ∈ rest.map Prod.fst := by
          rw [he]
          exact List.mem_map_of_mem _ hmem
        simp only [List.map_cons, List.nodup_cons] at hnd
        exact hnd.1 this
      have hsingle : dictLookup [kv] kv'.1 = none := by
        simp [dictLookup, hne]
      rw [dictLookup_append_right_none base hsingle]
      exact hdisj kv' (List.mem_cons_of_mem _ hmem)
    have hnd' : (rest.map Prod.fst).Nodup := by
      simp only [List.map_cons, List.nodup_cons] at hnd
      exact hnd.2
    calc dictMerge base (kv :: rest)
        = dictMerge (dictInsert base kv.1 kv.2) rest := rfl
      _ = dictMerge (base ++ [kv]) rest := by rw [hstep]
      _ = (base ++ [kv]) ++ rest := ih (base ++ [kv]) hrest hnd'
      _ = base ++ kv :: rest := by simp

theorem typeOf_coerce {v w : Value} {ty : String}
    (h : _coerce_value v ty = some w) : typeOfValue w = ty := by
  unfold _coerce_value at h
  by_cases hi : ty = "int"
  · subst hi
    cases v with
    | vInt n => simp at h; rw [← h]; rfl
    | vStr s =>
      simp only [if_pos rfl] at h
      cases hp : pyIntOfString s with
      | none => rw [hp] at h; cases h
      | some m => rw [hp] at h; cases h; rfl
    | vBool b => simp at h
  · by_cases hs : ty = "str"
    · subst hs
      cases v with
      | vStr s => simp at h; rw [← h]; rfl
      | vInt n => simp at h
      | vBool b => simp at h
    · by_cases hb : ty = "bool"
      · subst hb
        cases v with
        | vBool b => simp at h; rw [← h]; rfl
        | vInt n => simp at h
        | vStr s =>
          simp only [if_neg hi, if_neg hs, if_pos rfl] at h
          by_cases ht : pyLower s = "true"
          · rw [if_pos ht] at h; cases h; rfl
          · rw [if_neg ht] at h
            by_cases hf : pyLower s = "false"
            · rw [if_pos hf] at h; cases h; rfl
            · rw [if_neg hf] at h; cases h
      · rw [if_neg hi, if_neg hs, if_neg hb] at h
        cases h

theorem pyEq_true_iff {w v : Value} (h : typeOfValue w = typeOfValue v) :
    pyEq w v = true ↔ w = v := by
  cases w <;> cases v <;> simp [typeOfValue] at h ⊢ <;> simp [pyEq]

theorem pyEq_str_int (s : String) (n : Int) :
    pyEq (Value.vStr s) (Value.vInt n) = false := rfl

theorem wellTypedRow_lookup {types : List (String × String)} {row : Row}
    {c ty : String} {w : Value} (hwt : wellTypedRow types row = true)
    (hrow : dictLookup row c = some w) (hty : dictLookup types c = some ty) :
    typeOfValue w = ty := by
  have hmem : (c, w) ∈ row := dictLookup_mem hrow
  have := (List.all_eq_true.mp hwt) (c, w) hmem
  simp only [hty] at this
  exact of_decide_eq_true this

theorem pyMatch_eq_matchesP {types : List (String × String)} {row : Row}
    {c ty : String} {v : Value} (hwt : wellTypedRow types row = true)
    (hty : dictLookup types c = some ty) (hv : typeOfValue v = ty) :
    pyMatch row c v = matchesP c v row := by
  unfold pyMatch matchesP
  cases hrow : dictLookup row c with
  | none => simp
  | some w =>
    have hw : typeOfValue w = ty := wellTypedRow_lookup hwt hrow hty
    have hk : typeOfValue w = typeOfValue v := by rw [hw, hv]
    have hiff := pyEq_true_iff hk
    show pyEq w v = decide (some w = some v)
    cases hb : pyEq w v with
    | true =>
      have he : w = v := hiff.mp hb
      rw [he]
      simp
    | false =>
      have hne : ¬w = v := by
        intro e
        rw [hiff.mpr e] at hb
        cases hb
      simp [hne]

theorem le_foldl_maxID_init :
    ∀ (l : List Row) (a : Int), a ≤ l.foldl (fun acc r => max acc (rowID r)) a := by
  intro l
  induction l with
  | nil => intro a; exact le_refl a
  | cons row rest ih =>
    intro a
    calc a ≤ max a (rowID row) := le_max_left _ _
      _ ≤ rest.foldl (fun acc r => max acc (rowID r)) (max a (rowID row)) := ih _

theorem le_foldl_maxID_mem :
    ∀ (l : List Row) (a : Int) (r : Row), r ∈ l →
      rowID r ≤ l.foldl (fun acc r => max acc (rowID r)) a := by
  intro l
  induction l with
  | nil => intro a r hr; cases hr
  | cons row rest ih =>
    intro a r hr
    rcases List.mem_cons.mp hr with h1 | h2
    · subst h1
      calc rowID r ≤ max a (rowID r) := le_max_right _ _
        _ ≤ rest.foldl (fun acc r => max acc (rowID r)) (max a (rowID r)) :=
          le_foldl_maxID_init rest _
    · exact ih _ r h2

theorem foldl_maxID_attained :
    ∀ (l : List Row) (a : Int),
      l.foldl (fun acc r => max acc (rowID r)) a = a ∨
        ∃ r ∈ l, l.foldl (fun acc r => max acc (rowID r)) a = rowID r := by
  intro l
  induction l with
  | nil => intro a; exact Or.inl rfl
  | cons row rest ih =>
    intro a
    rcases ih (max a (rowID row)) with h | ⟨r, hr, he⟩
    · rcases max_choice a (rowID row) with hm | hm
      · left
        simpa [hm] using h
      · right
        refine ⟨row, List.mem_cons_self _ _, ?_⟩
        simpa [hm] using h
    · right
      exact ⟨r, List.mem_cons_of_mem _ hr, he⟩

theorem rowID_le_maxID {data : List Row} {r : Row} (h : r ∈ data) :
    rowID r ≤ maxID data := by
  cases data with
  | nil => cases h
  | cons row rest =>
    rcases List.mem_cons.mp h with h1 | h2
    · subst h1
      exact le_foldl_maxID_init rest _
    · exact le_foldl_maxID_mem rest _ r h2

theorem maxID_attained {data : List Row} (h : data ≠ []) :
    ∃ r ∈ data, rowID r = maxID data := by
  cases data with
  | nil => exact absurd rfl h
  | cons row rest =>
    rcases foldl_maxID_attained rest (rowID row) with he | ⟨r, hr, he⟩
    · exact ⟨row, List.mem_cons_self _ _, he.symm⟩
    · exact ⟨r, List.mem_cons_of_mem _ hr, he.symm⟩

theorem coerceValues_length :
    ∀ {cols : List Column} {vals ws : List Value},
      coerceValues cols vals = some ws →
      ws.length = cols.length ∧ vals.length = cols.length := by
  intro cols
  induction cols with
  | nil =>
    intro vals ws h
    cases vals with
    | nil => simp [coerceValues] at h; simp [← h]
    | cons v vs => simp [coerceValues] at h
  | cons c cs ih =>
    intro vals ws h
    cases vals with
    | nil => simp [coerceValues] at h
    | cons v vs =>
      simp only [coerceValues] at h
      cases hc : _coerce_value v c.type with
      | none => rw [hc] at h; cases h
      | some w =>
        rw [hc] at h
        cases hcs : coerceValues cs vs with
        | none => rw [hcs] at h; cases h
        | some ws' =>
          rw [hcs] at h
          simp only [Option.map_some'] at h
          cases h
          have := ih hcs
          simp [this.1, this.2]

theorem coerceRecord_of_coerceValues :
    ∀ {cols : List Column} {vals ws : List Value} (rec : Row),
      coerceValues cols vals = some ws →
      coerceRecord cols vals rec =
        .ok (dictMerge rec ((cols.map Column.name).zip ws)) := by
  intro cols
  induction cols with
  | nil =>
    intro vals ws rec h
    cases vals with
    | nil => simp [coerceValues] at h; simp [coerceRecord, ← h, dictMerge]
    | cons v vs => simp [coerceValues] at h
  | cons c cs ih =>
    intro vals ws rec h
    cases vals with
    | nil => simp [coerceValues] at h
    | cons v vs =>
      simp only [coerceValues] at h
      cases hc : _coerce_value v c.type with
      | none => rw [hc] at h; cases h
      | some w =>
        rw [hc] at h
        cases hcs : coerceValues cs vs with
        | none => rw [hcs] at h; cases h
        | some ws' =>
          rw [hcs] at h
          simp only [Option.map_some'] at h
          cases h
          simp only [coerceRecord, hc]
          rw [ih (dictInsert rec c.name w) hcs]
          rfl

theorem coerceRecord_error_first :
    ∀ {cs1 : List Column} {vs1 ws1 : List Value} (c : Column) (cs2 : List Column)
      (v : Value) (vs2 : List Value) (rec : Row),
      coerceValues cs1 vs1 = some ws1 →
      _coerce_value v c.type = none →
      coerceRecord (cs1 ++ c :: cs2) (vs1 ++ v :: vs2) rec =
        .error ("Некорректное значение: " ++ pyStr v ++ ". Попробуйте снова.") := by
  intro cs1
  induction cs1 with
  | nil =>
    intro vs1 ws1 c cs2 v vs2 rec h hfail
    cases vs1 with
    | nil => simp only [List.nil_append, coerceRecord, hfail]
    | cons x xs => simp [coerceValues] at h
  | cons c1 cs ih =>
    intro vs1 ws1 c cs2 v vs2 rec h hfail
    cases vs1 with
    | nil => simp [coerceValues] at h
    | cons x xs =>
      simp only [coerceValues] at h
      cases hc : _coerce_value x c1.type with
      | none => rw [hc] at h; cases h
      | some w =>
        rw [hc] at h
        cases hcs : coerceValues cs xs with
        | none => rw [hcs] at h; cases h
        | some ws' =>
          have hstep : ((c1 :: cs) ++ c :: cs2) = c1 :: (cs ++ c :: cs2) := rfl
          have hstepv : ((x :: xs) ++ v :: vs2) = x :: (xs ++ v :: vs2) := rfl
          rw [hstep, hstepv]
          simp only [coerceRecord, hc]
          exact ih c cs2 v vs2 _ hcs hfail

theorem parseColumnsAux_ok :
    ∀ {raws : List String} {used : List String} {parsed : List Column},
      parseColumnsAux raws used = .ok parsed →
      List.Forall₂ (fun raw col =>
        rawColumnSpec raw = some col ∧ wellFormedRaw raw = true) raws parsed ∧
      (parsed.map Column.name).Nodup ∧
      ∀ col ∈ parsed, col.name ∉ used := by
  intro raws
  induction raws with
  | nil =>
    intro used parsed h
    simp only [parseColumnsAux] at h
    cases h
    exact ⟨List.Forall₂.nil, List.nodup_nil, by intro col hc; cases hc⟩
  | cons raw rest ih =>
    intro used parsed h
    simp only [parseColumnsAux] at h
    cases hsplit : splitOnceColon raw.toList with
    | none => rw [hsplit] at h; cases h
    | some nt =>
      obtain ⟨n, t⟩ := nt
      rw [hsplit] at h
      dsimp only at h
      by_cases h1 : pyStripS (String.mk n) = "" ∨
          pyUpper (pyStripS (String.mk n)) = "ID"
      · rw [if_pos h1] at h; cases h
      · rw [if_neg h1] at h
        by_cases h2 : pyStripS (String.mk n) ∈ used ∨
            ¬(pyStripS (String.mk t) = "int" ∨ pyStripS (String.mk t) = "str" ∨
              pyStripS (String.mk t) = "bool")
        · rw [if_pos h2] at h; cases h
        · rw [if_neg h2] at h
          cases hrec : parseColumnsAux rest (pyStripS (String.mk n) :: used) with
          | error msg => rw [hrec] at h; cases h
          | ok parsed' =>
            rw [hrec] at h
            cases h
            push_neg at h1 h2
            obtain ⟨hne, hid⟩ := h1
            obtain ⟨hused, hty⟩ := h2
            obtain ⟨hall, hnd, hfresh⟩ := ih hrec
            have hspec : rawColumnSpec raw =
                some ⟨pyStripS (String.mk n), pyStripS (String.mk t)⟩ := by
              unfold rawColumnSpec
              rw [hsplit]
            have hwf : wellFormedRaw raw = true := by
              simp only [wellFormedRaw, hspec]
              simp only [Bool.and_eq_true, decide_eq_true_eq, Bool.or_eq_true]
              refine ⟨⟨hne, hid⟩, ?_⟩
              rcases hty with h | h | h <;> simp [h]
            refine ⟨List.Forall₂.cons ⟨hspec, hwf⟩ hall, ?_, ?_⟩
            · simp only [List.map_cons, List.nodup_cons]
              refine ⟨?_, hnd⟩
              intro hmem
              rcases List.mem_map.mp hmem with ⟨col, hcol, hname⟩
              exact (hfresh col hcol) (by rw [hname]; exact List.mem_cons_self _ _)
            · intro col hcol
              rcases List.mem_cons.mp hcol with hh | ht
              · rw [hh]
                exact hused
              · intro hmem
                exact (hfresh col ht) (List.mem_cons_of_mem _ hmem)

theorem updateRows_forall₂ (wc : String) (wv : Value) (sc : String) (sv : Value) :
    ∀ data : List Row,
      List.Forall₂ (fun orig new =>
        (pyMatch orig wc wv = false → new = orig) ∧
        (pyMatch orig wc wv = true → new = dictInsert orig sc sv))
        data (updateRows wc wv sc sv data).1 := by
  intro data
  induction data with
  | nil => exact List.Forall₂.nil
  | cons row rest ih =>
    simp only [updateRows]
    by_cases hm : pyMatch row wc wv = true
    · rw [if_pos hm]
      refine List.Forall₂.cons ⟨?_, ?_⟩ ih
      · intro hf
        exact absurd hm (by simp [hf])
      · intro _
        rfl
    · rw [if_neg hm]
      refine List.Forall₂.cons ⟨?_, ?_⟩ ih
      · intro _
        rfl
      · intro ht
        exact absurd ht hm

theorem updateRows_ids (wc : String) (wv : Value) (sc : String) (sv : Value)
    (hsc : sc ≠ "ID") :
    ∀ data : List Row,
      ((updateRows wc wv sc sv data).1).map (fun r => dictLookup r "ID") =
        data.map (fun r => dictLookup r "ID") := by
  intro data
  induction data with
  | nil => rfl
  | cons row rest ih =>
    simp only [updateRows]
    by_cases hm : pyMatch row wc wv = true
    · rw [if_pos hm]
      simp only [List.map_cons, ih]
      rw [dictLookup_insert_ne row sc "ID" sv (fun e => hsc e.symm)]
    · rw [if_neg hm]
      simp only [List.map_cons, ih]

theorem deleteRows_eq_filter (wc : String) (wv : Value) :
    ∀ data : List Row,
      deleteRows wc wv data =
        (data.filter (fun r => !pyMatch r wc wv),
         (data.filter (fun r => pyMatch r wc wv)).map rowID) := by
  intro data
  induction data with
  | nil => rfl
  | cons row rest ih =>
    simp only [deleteRows, ih]
    cases hm : pyMatch row wc wv with
    | true => simp [List.filter, hm]
    | false => simp [List.filter, hm]

theorem splitLoop_spec :
    ∀ (cs : List Char) (values : List String) (current : List Char) (q : Bool),
      splitLoop cs values current q =
        (values ++ (finishFields (current ++ (splitFieldsP cs q).1) (splitFieldsP cs q).2).1,
         (finishFields (current ++ (splitFieldsP cs q).1) (splitFieldsP cs q).2).2,
         cs.foldl (fun b c => if c = '"' then !b else b) q) := by
  intro cs
  induction cs with
  | nil =>
    intro values current q
    simp [splitLoop, splitFieldsP, finishFields]
  | cons c rest ih =>
    intro values current q
    by_cases hq : c = '"'
    · subst hq
      simp only [splitLoop, if_pos rfl, splitFieldsP, List.foldl_cons, if_pos rfl]
      rw [ih]
      simp [List.append_assoc]
    · by_cases hc : (c = ',' && !q) = true
      · obtain ⟨hc1, hc2⟩ := Bool.and_eq_true_iff.mp hc
        have hcc : c = ',' := by simpa using hc1
        subst hcc
        have hqf : q = false := by simpa using hc2
        subst hqf
        simp only [splitLoop, if_neg hq, if_pos rfl, splitFieldsP, List.foldl_cons,
          if_neg hq]
        rw [ih]
        simp [finishFields]
      · simp only [splitLoop, if_neg hq, if_neg hc, splitFieldsP, List.foldl_cons,
          if_neg hq]
        rw [ih]
        simp [List.append_assoc]

theorem digitGroups_ne_nil : ∀ u : List Char, digitGroups u ≠ [] := by
  intro u
  induction u with
  | nil => simp [digitGroups]
  | cons c rest ih =>
    simp only [digitGroups]
    by_cases hc : c = '_'
    · simp [hc]
    · rw [if_neg hc]
      cases hg : digitGroups rest with
      | nil => exact absurd hg ih
      | cons g gs => simp

theorem joinGroups_cons_head (c : Char) (g : List Char) (gs : List (List Char)) :
    joinGroups ((c :: g) :: gs) = c :: joinGroups (g :: gs) := by
  cases gs with
  | nil => rfl
  | cons g2 gs2 => rfl

theorem joinGroups_digitGroups : ∀ u : List Char, joinGroups (digitGroups u) = u := by
  intro u
  induction u with
  | nil => rfl
  | cons c rest ih =>
    simp only [digitGroups]
    by_cases hc : c = '_'
    · subst hc
      rw [if_pos rfl]
      cases hg : digitGroups rest with
      | nil => exact absurd hg (digitGroups_ne_nil rest)
      | cons g gs =>
        rw [hg] at ih
        have hstep : joinGroups ([] :: g :: gs) = '_' :: joinGroups (g :: gs) := rfl
        rw [hstep, ih]
    · rw [if_neg hc]
      cases hg : digitGroups rest with
      | nil => exact absurd hg (digitGroups_ne_nil rest)
      | cons g gs =>
        rw [hg] at ih
        show joinGroups ((c :: g) :: gs) = c :: rest
        rw [joinGroups_cons_head, ih]

theorem digitGroups_no_underscore :
    ∀ g : List Char, '_' ∉ g → digitGroups g = [g] := by
  intro g
  induction g with
  | nil => intro _; rfl
  | cons c rest ih =>
    intro h
    have hc : c ≠ '_' := fun e => h (by rw [e]; exact List.mem_cons_self _ _)
    have hrest : '_' ∉ rest := fun hm => h (List.mem_cons_of_mem _ hm)
    simp only [digitGroups, if_neg hc, ih hrest]

theorem digitGroups_append_underscore :
    ∀ (g t : List Char), '_' ∉ g →
      digitGroups (g ++ '_' :: t) = g :: digitGroups t := by
  intro g
  induction g with
  | nil =>
    intro t _
    simp [digitGroups]
  | cons c rest ih =>
    intro t h
    have hc : c ≠ '_' := fun e => h (by rw [e]; exact List.mem_cons_self _ _)
    have hrest : '_' ∉ rest := fun hm => h (List.mem_cons_of_mem _ hm)
    have hstep : (c :: rest) ++ '_' :: t = c :: (rest ++ '_' :: t) := rfl
    rw [hstep]
    simp only [digitGroups, if_neg hc, ih t hrest]

theorem digitGroups_joinGroups :
    ∀ ds : List (List Char), ds ≠ [] → (∀ g ∈ ds, '_' ∉ g) →
      digitGroups (joinGroups ds) = ds := by
  intro ds
  induction ds with
  | nil => intro h _; exact absurd rfl h
  | cons g gs ih =>
    intro _ hall
    cases gs with
    | nil =>
      have : joinGroups [g] = g := rfl
      rw [this]
      exact digitGroups_no_underscore g (hall g (List.mem_cons_self _ _))
    | cons g2 gs2 =>
      have hstep : joinGroups (g :: g2 :: gs2) = g ++ '_' :: joinGroups (g2 :: gs2) := rfl
      rw [hstep]
      rw [digitGroups_append_underscore g _ (hall g (List.mem_cons_self _ _))]
      rw [ih (by simp) (fun g' hg' => hall g' (List.mem_cons_of_mem _ hg'))]

theorem joinGroups_ne_nil :
    ∀ ds : List (List Char), ds ≠ [] → (∀ g ∈ ds, g ≠ []) → joinGroups ds ≠ [] := by
  intro ds
  cases ds with
  | nil => intro h _; exact absurd rfl h
  | cons g gs =>
    intro _ hall
    cases gs with
    | nil => exact hall g (List.mem_cons_self _ _)
    | cons g2 gs2 =>
      have hstep : joinGroups (g :: g2 :: gs2) = g ++ '_' :: joinGroups (g2 :: gs2) := rfl
      rw [hstep]
      intro he
      rcases List.append_eq_nil.mp he with ⟨_, h2⟩
      cases h2

theorem all_digits_no_underscore {g : List Char} (h : g.all Char.isDigit = true) :
    '_' ∉ g := by
  intro hm
  have := List.all_eq_true.mp h _ hm
  exact absurd this (by decide)

theorem joinGroups_head_digit :
    ∀ ds : List (List Char), ds ≠ [] →
      (∀ g ∈ ds, g ≠ [] ∧ g.all Char.isDigit = true) →
      ∃ d t, joinGroups ds = d :: t ∧ d.isDigit = true := by
  intro ds
  cases ds with
  | nil => intro h _; exact absurd rfl h
  | cons g gs =>
    intro _ hall
    obtain ⟨hne, hdig⟩ := hall g (List.mem_cons_self _ _)
    cases g with
    | nil => exact absurd rfl hne
    | cons d g' =>
      refine ⟨d, joinGroups (g' :: gs), joinGroups_cons_head d g' gs, ?_⟩
      exact List.all_eq_true.mp hdig d (List.mem_cons_self _ _)

theorem pyIntDigitsOk_iff_groups (u : List Char) :
    pyIntDigitsOk u = true ↔
      ∃ ds, ds ≠ [] ∧ (∀ g ∈ ds, g ≠ [] ∧ g.all Char.isDigit = true) ∧
        u = joinGroups ds := by
  constructor
  · intro h
    refine ⟨digitGroups u, digitGroups_ne_nil u, ?_, (joinGroups_digitGroups u).symm⟩
    intro g hg
    have := List.all_eq_true.mp h g hg
    rcases Bool.and_eq_true_iff.mp this with ⟨h1, h2⟩
    refine ⟨?_, h2⟩
    intro he
    rw [he] at h1
    cases h1
  · rintro ⟨ds, hne, hall, he⟩
    subst he
    have hg : digitGroups (joinGroups ds) = ds :=
      digitGroups_joinGroups ds hne
        (fun g hg => all_digits_no_underscore (hall g hg).2)
    unfold pyIntDigitsOk
    rw [hg]
    apply List.all_eq_true.mpr
    intro g hgm
    obtain ⟨h1, h2⟩ := hall g hgm
    apply Bool.and_eq_true_iff.mpr
    refine ⟨?_, h2⟩
    cases g with
    | nil => exact absurd rfl h1
    | cons x xs => rfl

theorem pyInt_isSome_iff (s : String) :
    (pyIntOfString s).isSome = true ↔ AmendedIntText s := by
  unfold pyIntOfString
  cases hstrip : pyStripChars s.toList with
  | nil =>
    constructor
    · intro h
      simp at h
    · rintro ⟨sign, ds, hsign, hne, hall, heq⟩
      rw [hstrip] at heq
      have hjne : joinGroups ds ≠ [] :=
        joinGroups_ne_nil ds hne (fun g hg => (hall g hg).1)
      rcases List.append_eq_nil.mp heq.symm with ⟨_, h2⟩
      exact (hjne h2).elim
  | cons c rest =>
    dsimp only
    by_cases hp : c = '+'
    · subst hp
      rw [if_pos rfl]
      constructor
      · intro h
        cases hok : pyIntDigitsOk rest with
        | false => rw [hok] at h; simp at h
        | true =>
          obtain ⟨ds, hne, hall, he⟩ := (pyIntDigitsOk_iff_groups rest).mp hok
          exact ⟨['+'], ds, Or.inr (Or.inl rfl), hne, hall, by
            rw [hstrip, he]; rfl⟩
      · rintro ⟨sign, ds, hsign, hne, hall, heq⟩
        rw [hstrip] at heq
        rcases hsign with h0 | h0 | h0 <;> subst h0
        · obtain ⟨d, t, hjoin, hdig⟩ := joinGroups_head_digit ds hne hall
          rw [hjoin] at heq
          simp only [List.nil_append, List.cons.injEq] at heq
          rw [← heq.1] at hdig
          exact absurd hdig (by decide)
        · simp only [List.cons_append, List.nil_append, List.cons.injEq,
            true_and] at heq
          have hok : pyIntDigitsOk rest = true := by
            rw [heq]
            exact (pyIntDigitsOk_iff_groups _).mpr ⟨ds, hne, hall, rfl⟩
          rw [if_pos hok]
          rfl
        · simp only [List.cons_append, List.nil_append, List.cons.injEq] at heq
          exact absurd heq.1 (by decide)
    · rw [if_neg hp]
      by_cases hmn : c = '-'
      · subst hmn
        rw [if_pos rfl]
        constructor
        · intro h
          cases hok : pyIntDigitsOk rest with
          | false => rw [hok] at h; simp at h
          | true =>
            obtain ⟨ds, hne, hall, he⟩ := (pyIntDigitsOk_iff_groups rest).mp hok
            exact ⟨['-'], ds, Or.inr (Or.inr rfl), hne, hall, by
              rw [hstrip, he]; rfl⟩
        · rintro ⟨sign, ds, hsign, hne, hall, heq⟩
          rw [hstrip] at heq
          rcases hsign with h0 | h0 | h0 <;> subst h0
          · obtain ⟨d, t, hjoin, hdig⟩ := joinGroups_head_digit ds hne hall
            rw [hjoin] at heq
            simp only [List.nil_append, List.cons.injEq] at heq
            rw [← heq.1] at hdig
            exact absurd hdig (by decide)
          · simp only [List.cons_append, List.nil_append, List.cons.injEq] at heq
            exact absurd heq.1 (by decide)
          · simp only [List.cons_append, List.nil_append, List.cons.injEq,
              true_and] at heq
            have hok : pyIntDigitsOk rest = true := by
              rw [heq]
              exact (pyIntDigitsOk_iff_groups _).mpr ⟨ds, hne, hall, rfl⟩
            rw [if_pos hok]
            rfl
      · rw [if_neg hmn]
        constructor
        · intro h
          cases hok : pyIntDigitsOk (c :: rest) with
          | false => rw [hok] at h; simp at h
          | true =>
            obtain ⟨ds, hne, hall, he⟩ := (pyIntDigitsOk_iff_groups (c :: rest)).mp hok
            exact ⟨[], ds, Or.inl rfl, hne, hall, by
              rw [hstrip, he]; rfl⟩
        · rintro ⟨sign, ds, hsign, hne, hall, heq⟩
          rw [hstrip] at heq
          rcases hsign with h0 | h0 | h0 <;> subst h0
          · simp only [List.nil_append] at heq
            have hok : pyIntDigitsOk (c :: rest) = true := by
              rw [heq]
              exact (pyIntDigitsOk_iff_groups _).mpr ⟨ds, hne, hall, rfl⟩
            rw [if_pos hok]
            rfl
          · simp only [List.cons_append, List.nil_append, List.cons.injEq] at heq
            exact absurd heq.1 hp
          · simp only [List.cons_append, List.nil_append, List.cons.injEq] at heq
            exact absurd heq.1 hmn

theorem split_csv_values_eq (s : String) :
    split_csv_values s =
      if unbalancedQuotes s then .error unbalancedMsg
      else if (specKept s).isEmpty || (specKept s).any (fun v => v = "") then
        .error emptyValueMsg
      else .ok (specKept s) := by
  unfold split_csv_values
  rw [splitLoop_spec]
  simp only [List.nil_append]
  rfl

theorem cacheLookup_append_self (cache : List (CacheKey × List Row))
    (key : CacheKey) (e : List Row) (h : cacheLookup cache key = none) :
    cacheLookup (cache ++ [(key, e)]) key = some e := by
  induction cache with
  | nil => simp [cacheLookup]
  | cons kv rest ih =>
    simp only [cacheLookup] at h
    by_cases hk : kv.1 = key
    · rw [if_pos hk] at h; cases h
    · rw [if_neg hk] at h
      have hc : (kv :: rest) ++ [(key, e)] = kv :: (rest ++ [(key, e)]) := rfl
      rw [hc]
      simp only [cacheLookup, if_neg hk]
      exact ih h

theorem strJoin_append_singleton_length :
    ∀ (xs : List String) (y : String), 0 < y.length →
      (strJoin ", " xs).length < (strJoin ", " (xs ++ [y])).length := by
  intro xs
  induction xs with
  | nil =>
    intro y hy
    simpa [strJoin] using hy
  | cons x rest ih =>
    intro y hy
    cases rest with
    | nil =>
      show x.length < (x ++ ", " ++ y).length
      simp only [String.length_append]
      have : (", " : String).length = 2 := rfl
      omega
    | cons x2 rest2 =>
      have h1 : strJoin ", " (x :: x2 :: rest2) =
          x ++ ", " ++ strJoin ", " (x2 :: rest2) := rfl
      have h2 : strJoin ", " ((x :: x2 :: rest2) ++ [y]) =
          x ++ ", " ++ strJoin ", " ((x2 :: rest2) ++ [y]) := rfl
      rw [h1, h2]
      simp only [String.length_append]
      have := ih y hy
      omega

theorem dumpsRow_length_pos (row : Row) : 0 < (dumpsRow row).length := by
  unfold dumpsRow
  simp only [String.length_append]
  have : ("\x7b" : String).length = 1 := rfl
  omega

theorem dumpsData_append_ne (d : List Row) (r : Row) :
    dumpsData (d ++ [r]) ≠ dumpsData d := by
  intro he
  have hlen := congrArg String.length he
  unfold dumpsData at hlen
  rw [List.map_append] at hlen
  simp only [List.map_cons, List.map_nil, String.length_append] at hlen
  have := strJoin_append_singleton_length (d.map dumpsRow) (dumpsRow r)
    (dumpsRow_length_pos r)
  omega

/-- C1, counterexample: the claim states that for target `Int` a text value is
accepted exactly when it parses fully as a base-10 integer, but `_coerce_value`
delegates text to Python `int()`, which also strips surrounding whitespace:
the text `" 5"` is accepted although it is not an optional sign followed only
by digits. -/
theorem c1_coerce_counterexample :
    _coerce_value (.vStr " 5") "int" = some (.vInt 5) ∧
      isBase10IntText " 5" = false := by
  decide

/-- C1, amended: the coercion laws hold — `"true"` in any casing coerces to
`Bool` as `true`, any casing of `"false"` (such as `"FALSE"`) as `false`,
`"5"` coerces to `Int` as `5`, a native boolean is rejected for `Int`, and a
native integer is rejected for `Text`; for target `Int` a text value is
accepted exactly when, after stripping surrounding whitespace, it is an
optional `+`/`-` sign followed by one or more groups of one or more decimal
digits separated by single underscores (Python `int()` literal syntax). -/
theorem c1_coerce_laws_amended :
    (∀ s : String, pyLower s = "true" →
      _coerce_value (.vStr s) "bool" = some (.vBool true)) ∧
    (∀ s : String, pyLower s = "false" →
      _coerce_value (.vStr s) "bool" = some (.vBool false)) ∧
    _coerce_value (.vStr "5") "int" = some (.vInt 5) ∧
    (∀ b : Bool, _coerce_value (.vBool b) "int" = none) ∧
    (∀ n : Int, _coerce_value (.vInt n) "str" = none) ∧
    (∀ s : String,
      (_coerce_value (.vStr s) "int").isSome = true ↔ AmendedIntText s) := by
  refine ⟨?_, ?_, by decide, ?_, ?_, ?_⟩
  · intro s hs
    simp [_coerce_value, hs]
  · intro s hs
    simp [_coerce_value, hs]
  · intro b
    simp [_coerce_value]
  · intro n
    simp [_coerce_value]
  · intro s
    have h : _coerce_value (.vStr s) "int" = (pyIntOfString s).map .vInt := by
      simp [_coerce_value]
    rw [h]
    have h2 : ((pyIntOfString s).map Value.vInt).isSome = (pyIntOfString s).isSome := by
      cases pyIntOfString s <;> rfl
    rw [h2]
    exact pyInt_isSome_iff s

/-- C1 witness: the amended laws at concrete inputs — `"TrUe"` coerces to
`true`, and `" 4_2"` (whitespace and an underscore group) is an accepted
`Int` text. -/
theorem c1_coerce_laws_amended_witness :
    _coerce_value (.vStr "TrUe") "bool" = some (.vBool true) ∧
      AmendedIntText " 4_2" :=
  ⟨c1_coerce_laws_amended.1 "TrUe" (by decide),
   (c1_coerce_laws_amended.2.2.2.2.2 " 4_2").mp (by decide)⟩

/-- C2: for an existing table, a value list of the right arity whose values
all coerce, `insert` returns `newID = (max existing ID, or 0 when empty) + 1`
(expressed by the bounds: every stored ID is below `newID`, and `newID - 1`
is 0 for an empty table and an existing ID otherwise), and appends — at the
end, leaving the existing rows untouched — the new row with `ID` first
followed by the coerced values in declaration order. -/
theorem c2_insert_appends (md : Metadata) (tn : String) (cols : List Column)
    (values : List Value) (data : List Row) (ws : List Value)
    (hmd : dictLookup md tn = some cols)
    (hco : coerceValues (cols.drop 1) values = some ws)
    (hnd : ((cols.drop 1).map Column.name).Nodup)
    (hid : "ID" ∉ (cols.drop 1).map Column.name) :
    ∃ newID : Int,
      insert md tn values data =
        .ok (data ++ [("ID", Value.vInt newID) ::
          ((cols.drop 1).map Column.name).zip ws], newID) ∧
      (∀ r ∈ data, rowID r < newID) ∧
      (data = [] → newID = 1) ∧
      (data ≠ [] → ∃ r ∈ data, rowID r + 1 = newID) := by
  obtain ⟨hws, hvl⟩ := coerceValues_length hco
  refine ⟨maxID data + 1, ?_, ?_, ?_, ?_⟩
  · unfold insert
    rw [hmd]
    dsimp only
    rw [if_neg (not_not_intro hvl)]
    rw [coerceRecord_of_coerceValues [] hco]
    dsimp only
    have hkeys : (((cols.drop 1).map Column.name).zip ws).map Prod.fst =
        (cols.drop 1).map Column.name := by
      apply List.map_fst_zip
      rw [List.length_map, hws]
    have hmerge0 : dictMerge ([] : Row) (((cols.drop 1).map Column.name).zip ws) =
        ((cols.drop 1).map Column.name).zip ws := by
      rw [dictMerge_eq_append (((cols.drop 1).map Column.name).zip ws) []
        (fun kv _ => rfl) (by rw [hkeys]; exact hnd)]
      simp
    have hmerge1 : dictMerge [("ID", Value.vInt (maxID data + 1))]
        (((cols.drop 1).map Column.name).zip ws) =
        ("ID", Value.vInt (maxID data + 1)) ::
          ((cols.drop 1).map Column.name).zip ws := by
      rw [dictMerge_eq_append]
      · rfl
      · intro kv hkv
        have hk1 : kv.1 ∈ (cols.drop 1).map Column.name := by
          rw [← hkeys]
          exact List.mem_map_of_mem _ hkv
        have hne : ¬"ID" = kv.1 := fun e => hid (e ▸ hk1)
        simp [dictLookup, hne]
      · rw [hkeys]
        exact hnd
    rw [hmerge0, hmerge1]
  · intro r hr
    have := rowID_le_maxID hr
    omega
  · intro he
    subst he
    simp [maxID]
  · intro hne
    obtain ⟨r, hr, he⟩ := maxID_attained hne
    exact ⟨r, hr, by rw [he]⟩

/-- C2 witness: a concrete insert into a table holding a row with ID 3
appends the new row at the end with ID 4. -/
theorem c2_insert_appends_witness :
    ∃ newID : Int,
      insert [("t", [⟨"ID", "int"⟩, ⟨"a", "int"⟩])] "t" [.vStr "5"]
          [[("ID", .vInt 3)]] =
        .ok ([[("ID", .vInt 3)]] ++
          [("ID", Value.vInt newID) ::
            (([⟨"ID", "int"⟩, ⟨"a", "int"⟩].drop 1).map Column.name).zip
              [Value.vInt 5]], newID) ∧
      (∀ r ∈ [[("ID", Value.vInt 3)]], rowID r < newID) ∧
      ([[("ID", Value.vInt 3)]] = ([] : List Row) → newID = 1) ∧
      ([[("ID", Value.vInt 3)]] ≠ ([] : List Row) →
        ∃ r ∈ [[("ID", Value.vInt 3)]], rowID r + 1 = newID) :=
  c2_insert_appends [("t", [⟨"ID", "int"⟩, ⟨"a", "int"⟩])] "t"
    [⟨"ID", "int"⟩, ⟨"a", "int"⟩] [.vStr "5"] [[("ID", .vInt 3)]]
    [Value.vInt 5] (by decide) (by decide) (by decide) (by decide)

/-- C3: an update whose set clause targets `ID` always fails (a `ValueError`
caught by the error boundary), for every catalog, table name, table data and
where clause — so no data is produced and the caller's table data stays as it
was; and consequently every successful `update`, whatever its clauses, leaves
the `ID` of every row unchanged. -/
theorem c3_update_id_immutable :
    (∀ (md : Metadata) (tn : String) (data : List Row) (sv : Value)
      (wc : String × Value),
      exceptIsOk (update md tn data ("ID", sv) wc) = false) ∧
    (∀ (md : Metadata) (tn : String) (data : List Row)
      (sc wc : String × Value) (rows : List Row) (ids : List Int),
      update md tn data sc wc = .ok (rows, ids) →
      rows.map (fun r => dictLookup r "ID") =
        data.map (fun r => dictLookup r "ID")) := by
  constructor
  · intro md tn data sv wc
    unfold update
    cases hmd : dictLookup md tn with
    | none => rfl
    | some meta =>
      dsimp only
      cases hs : dictLookup (_column_types meta) "ID" with
      | none =>
        cases hw : dictLookup (_column_types meta) wc.1 <;> rfl
      | some sty =>
        cases hw : dictLookup (_column_types meta) wc.1 with
        | none => rfl
        | some wty =>
          dsimp only
          rw [if_pos rfl]
          rfl
  · intro md tn data sc wc rows ids h
    unfold update at h
    cases hmd : dictLookup md tn with
    | none => rw [hmd] at h; cases h
    | some meta =>
      rw [hmd] at h
      dsimp only at h
      cases hs : dictLookup (_column_types meta) sc.1 with
      | none =>
        rw [hs] at h
        cases hw : dictLookup (_column_types meta) wc.1 <;> rw [hw] at h <;> cases h
      | some sty =>
        rw [hs] at h
        cases hw : dictLookup (_column_types meta) wc.1 with
        | none => rw [hw] at h; cases h
        | some wty =>
          rw [hw] at h
          dsimp only at h
          by_cases hsc : sc.1 = "ID"
          · rw [if_pos hsc] at h; cases h
          · rw [if_neg hsc] at h
            cases hcs : _coerce_value sc.2 sty with
            | none => rw [hcs] at h; cases h
            | some nsv =>
              rw [hcs] at h
              cases hcw : _coerce_value wc.2 wty with
              | none => rw [hcw] at h; cases h
              | some nwv =>
                rw [hcw] at h
                have hrows : rows = (updateRows wc.1 nwv sc.1 nsv data).1 := by
                  injection h with h2
                  rw [h2]
                rw [hrows]
                exact updateRows_ids wc.1 nwv sc.1 nsv hsc data

/-- C3 witness: a concrete `set ID` update on an existing table fails, and a
concrete successful update leaves the row IDs unchanged. -/
theorem c3_update_id_immutable_witness :
    exceptIsOk (update [("t", [⟨"ID", "int"⟩, ⟨"a", "int"⟩])] "t"
      [[("ID", .vInt 1), ("a", .vInt 2)]] ("ID", .vInt 9) ("a", .vInt 2)) = false ∧
    ([[("ID", Value.vInt 1), ("a", Value.vInt 9)]].map
        (fun r => dictLookup r "ID") =
      [[("ID", Value.vInt 1), ("a", Value.vInt 2)]].map
        (fun r => dictLookup r "ID")) :=
  ⟨c3_update_id_immutable.1 [("t", [⟨"ID", "int"⟩, ⟨"a", "int"⟩])] "t"
      [[("ID", .vInt 1), ("a", .vInt 2)]] (.vInt 9) ("a", .vInt 2),
   c3_update_id_immutable.2 [("t", [⟨"ID", "int"⟩, ⟨"a", "int"⟩])] "t"
      [[("ID", .vInt 1), ("a", .vInt 2)]] ("a", .vInt 9) ("a", .vInt 2)
      [[("ID", Value.vInt 1), ("a", Value.vInt 9)]] [1] (by decide)⟩

/-- C10: every successful `update` keeps the row count and order (a pointwise
correspondence between old and new data), leaves rows that do not match the
where clause completely unchanged, and gives every row — matching or not —
the same `ID` and the same value in every column other than the set-clause
column as before. -/
theorem c10_update_frame (md : Metadata) (tn : String) (data : List Row)
    (sc wc : String × Value) (rows : List Row) (ids : List Int)
    (h : update md tn data sc wc = .ok (rows, ids)) :
    rows.length = data.length ∧
    ∃ nwv : Value,
      List.Forall₂ (fun orig new =>
        (pyMatch orig wc.1 nwv = false → new = orig) ∧
        dictLookup new "ID" = dictLookup orig "ID" ∧
        ∀ col : String, col ≠ sc.1 →
          dictLookup new col = dictLookup orig col) data rows := by
  unfold update at h
  cases hmd : dictLookup md tn with
  | none => rw [hmd] at h; cases h
  | some meta =>
    rw [hmd] at h
    dsimp only at h
    cases hs : dictLookup (_column_types meta) sc.1 with
    | none =>
      rw [hs] at h
      cases hw : dictLookup (_column_types meta) wc.1 <;> rw [hw] at h <;> cases h
    | some sty =>
      rw [hs] at h
      cases hw : dictLookup (_column_types meta) wc.1 with
      | none => rw [hw] at h; cases h
      | some wty =>
        rw [hw] at h
        dsimp only at h
        by_cases hsc : sc.1 = "ID"
        · rw [if_pos hsc] at h; cases h
        · rw [if_neg hsc] at h
          cases hcs : _coerce_value sc.2 sty with
          | none => rw [hcs] at h; cases h
          | some nsv =>
            rw [hcs] at h
            cases hcw : _coerce_value wc.2 wty with
            | none => rw [hcw] at h; cases h
            | some nwv =>
              rw [hcw] at h
              have hrows : rows = (updateRows wc.1 nwv sc.1 nsv data).1 := by
                injection h with h2
                rw [h2]
              subst hrows
              have hf := updateRows_forall₂ wc.1 nwv sc.1 nsv data
              constructor
              · exact hf.length_eq.symm
              · refine ⟨nwv, ?_⟩
                refine hf.imp ?_
                intro orig new hpair
                refine ⟨hpair.1, ?_, ?_⟩
                · cases hm : pyMatch orig wc.1 nwv with
                  | false => rw [hpair.1 hm]
                  | true =>
                    rw [hpair.2 hm]
                    exact dictLookup_insert_ne orig sc.1 "ID" nsv
                      (fun e => hsc e.symm)
                · intro col hcol
                  cases hm : pyMatch orig wc.1 nwv with
                  | false => rw [hpair.1 hm]
                  | true =>
                    rw [hpair.2 hm]
                    exact dictLookup_insert_ne orig sc.1 col nsv hcol

/-- C4: on an existing table, a where clause over a declared column whose
value coerces makes `delete` remove exactly the rows whose stored value in
that column equals the coerced predicate value, keep the remaining rows in
their original relative order, and return the removed rows' IDs in original
storage order; with no matching row it returns the data unchanged and an
empty ID list.  The data is assumed well-typed for the schema (the spec's
data-model invariant), which makes Python `==` agree with structural value
equality. -/
theorem c4_delete_exact (md : Metadata) (tn : String) (cols : List Column)
    (data : List Row) (c : String) (v : Value) (ty : String) (nwv : Value)
    (hmd : dictLookup md tn = some cols)
    (hty : dictLookup (_column_types cols) c = some ty)
    (hco : _coerce_value v ty = some nwv)
    (hwt : wellTypedData (_column_types cols) data = true) :
    delete md tn data (c, v) =
      .ok (data.filter (fun row => !matchesP c nwv row),
        (data.filter (matchesP c nwv)).map rowID) ∧
    ((∀ row ∈ data, matchesP c nwv row = false) →
      delete md tn data (c, v) = .ok (data, [])) := by
  have hmain : delete md tn data (c, v) =
      .ok (data.filter (fun row => !matchesP c nwv row),
        (data.filter (matchesP c nwv)).map rowID) := by
    unfold delete
    rw [hmd]
    dsimp only
    rw [hty]
    dsimp only
    rw [hco]
    dsimp only
    rw [deleteRows_eq_filter]
    have hcong : ∀ row ∈ data, pyMatch row c nwv = matchesP c nwv row := by
      intro row hrow
      exact pyMatch_eq_matchesP (List.all_eq_true.mp hwt row hrow) hty
        (typeOf_coerce hco)
    have h1 : data.filter (fun row => !pyMatch row c nwv) =
        data.filter (fun row => !matchesP c nwv row) :=
      List.filter_congr (fun row hrow => by rw [hcong row hrow])
    have h2 : data.filter (fun row => pyMatch row c nwv) =
        data.filter (fun row => matchesP c nwv row) :=
      List.filter_congr (fun row hrow => by rw [hcong row hrow])
    rw [h1, h2]
  refine ⟨hmain, ?_⟩
  intro hnone
  rw [hmain]
  have hkeep : data.filter (fun row => !matchesP c nwv row) = data := by
    apply List.filter_eq_self.mpr
    intro row hrow
    rw [hnone row hrow]
    rfl
  have hgone : data.filter (matchesP c nwv) = [] := by
    apply List.filter_eq_nil_iff.mpr
    intro row hrow
    rw [hnone row hrow]
    exact Bool.false_ne_true
  rw [hkeep, hgone]
  rfl

/-- C4 witness: a concrete delete on a two-row table removes exactly the
matching row, returns its ID, and keeps the other row. -/
theorem c4_delete_exact_witness :
    delete [("t", [⟨"ID", "int"⟩, ⟨"a", "int"⟩])] "t"
        [[("ID", .vInt 1), ("a", .vInt 7)], [("ID", .vInt 2), ("a", .vInt 8)]]
        ("a", .vStr "7") =
      .ok ([[("ID", .vInt 1), ("a", .vInt 7)],
          [("ID", .vInt 2), ("a", .vInt 8)]].filter
          (fun row => !matchesP "a" (Value.vInt 7) row),
        ([[("ID", .vInt 1), ("a", .vInt 7)],
          [("ID", .vInt 2), ("a", .vInt 8)]].filter
          (matchesP "a" (Value.vInt 7))).map rowID) :=
  (c4_delete_exact [("t", [⟨"ID", "int"⟩, ⟨"a", "int"⟩])] "t"
    [⟨"ID", "int"⟩, ⟨"a", "int"⟩]
    [[("ID", .vInt 1), ("a", .vInt 7)], [("ID", .vInt 2), ("a", .vInt 8)]]
    "a" (.vStr "7") "int" (.vInt 7) (by decide) (by decide) (by decide)
    (by decide)).1

/-- C5: `select` with no predicate returns the table data unchanged in
storage order; with a normalized predicate over well-typed data it returns
exactly the rows whose stored value for the predicate column structurally
equals the predicate value; and under an integer predicate no returned row
holds a text value in that column (a coerced int never matches a stored
text). -/
theorem c5_select_filter :
    (∀ data : List Row, select data none = data) ∧
    (∀ (md : Metadata) (tn : String) (cols : List Column) (data : List Row)
      (wc : String × Value) (c : String) (v : Value),
      dictLookup md tn = some cols →
      normalize_where_clause md tn wc = .ok (c, v) →
      wellTypedData (_column_types cols) data = true →
      select data (some (c, v)) = data.filter (matchesP c v)) ∧
    (∀ (data : List Row) (c : String) (n : Int) (row : Row),
      row ∈ select data (some (c, Value.vInt n)) →
      ∀ s : String, dictLookup row c ≠ some (Value.vStr s)) := by
  refine ⟨fun data => rfl, ?_, ?_⟩
  · intro md tn cols data wc c v hmd hnorm hwt
    unfold normalize_where_clause at hnorm
    rw [hmd] at hnorm
    dsimp only at hnorm
    cases hty : dictLookup (_column_types cols) wc.1 with
    | none => rw [hty] at hnorm; cases hnorm
    | some ty =>
      rw [hty] at hnorm
      dsimp only at hnorm
      cases hco : _coerce_value wc.2 ty with
      | none => rw [hco] at hnorm; cases hnorm
      | some nv =>
        rw [hco] at hnorm
        injection hnorm with hpair
        have hc : c = wc.1 := (congrArg Prod.fst hpair).symm
        have hv : v = nv := (congrArg Prod.snd hpair).symm
        subst hc
        subst hv
        show data.filter (fun row => pyMatch row wc.1 v) = _
        apply List.filter_congr
        intro row hrow
        exact pyMatch_eq_matchesP (List.all_eq_true.mp hwt row hrow) hty
          (typeOf_coerce hco)
  · intro data c n row hrow s he
    have hmem := List.mem_filter.mp hrow
    have hmatch : pyMatch row c (Value.vInt n) = true := hmem.2
    unfold pyMatch at hmatch
    rw [he] at hmatch
    cases hmatch

/-- C5 witness: a concrete normalized select over well-typed data filters by
structural equality. -/
theorem c5_select_filter_witness :
    select [[("ID", .vInt 1), ("a", .vInt 7)], [("ID", .vInt 2), ("a", .vInt 8)]]
        (some ("a", Value.vInt 7)) =
      [[("ID", .vInt 1), ("a", .vInt 7)], [("ID", .vInt 2), ("a", .vInt 8)]].filter
        (matchesP "a" (Value.vInt 7)) :=
  c5_select_filter.2.1 [("t", [⟨"ID", "int"⟩, ⟨"a", "int"⟩])] "t"
    [⟨"ID", "int"⟩, ⟨"a", "int"⟩]
    [[("ID", .vInt 1), ("a", .vInt 7)], [("ID", .vInt 2), ("a", .vInt 8)]]
    ("a", .vStr "7") "a" (.vInt 7) (by decide) (by decide) (by decide)

/-- C6: `insert` fails as a whole — returning an error, so no row is built
and the caller's table data is untouched — whenever the value count differs
from the number of user-declared columns (with the arity message), or, the
arity being right, when some value fails to coerce while all values before it
coerce: the error then names that first mismatching value, and no partial
insert occurs. -/
theorem c6_insert_atomic_failure (md : Metadata) (tn : String)
    (cols : List Column) (values : List Value) (data : List Row)
    (hmd : dictLookup md tn = some cols) :
    (values.length ≠ (cols.drop 1).length →
      insert md tn values data =
        .error "Некорректное значение: неверное количество значений.") ∧
    (∀ (cs1 : List Column) (col : Column) (cs2 : List Column)
      (vs1 : List Value) (v : Value) (vs2 : List Value) (ws1 : List Value),
      cols.drop 1 = cs1 ++ col :: cs2 →
      values = vs1 ++ v :: vs2 →
      values.length = (cols.drop 1).length →
      coerceValues cs1 vs1 = some ws1 →
      _coerce_value v col.type = none →
      insert md tn values data =
        .error ("Некорректное значение: " ++ pyStr v ++ ". Попробуйте снова.")) := by
  constructor
  · intro hlen
    unfold insert
    rw [hmd]
    dsimp only
    rw [if_pos hlen]
  · intro cs1 col cs2 vs1 v vs2 ws1 hcols hvals hlen hpre hfail
    unfold insert
    rw [hmd]
    dsimp only
    rw [if_neg (not_not_intro hlen)]
    rw [hcols, hvals]
    rw [coerceRecord_error_first col cs2 v vs2 [] hpre hfail]

/-- C6 witness: a concrete wrong-arity insert fails with the arity message,
and a concrete insert whose first value fails coercion fails with the message
naming that value. -/
theorem c6_insert_atomic_failure_witness :
    (insert [("t", [⟨"ID", "int"⟩, ⟨"a", "int"⟩])] "t" [] [] =
      .error "Некорректное значение: неверное количество значений.") ∧
    (insert [("t", [⟨"ID", "int"⟩, ⟨"a", "int"⟩, ⟨"b", "int"⟩])] "t"
        [.vInt 1, .vBool true] [] =
      .error ("Некорректное значение: " ++ pyStr (.vBool true) ++
        ". Попробуйте снова.")) :=
  ⟨(c6_insert_atomic_failure [("t", [⟨"ID", "int"⟩, ⟨"a", "int"⟩])] "t"
      [⟨"ID", "int"⟩, ⟨"a", "int"⟩] [] [] (by decide)).1 (by decide),
   (c6_insert_atomic_failure [("t", [⟨"ID", "int"⟩, ⟨"a", "int"⟩, ⟨"b", "int"⟩])]
      "t" [⟨"ID", "int"⟩, ⟨"a", "int"⟩, ⟨"b", "int"⟩] [.vInt 1, .vBool true] []
      (by decide)).2 [⟨"a", "int"⟩] ⟨"b", "int"⟩ [] [.vInt 1] (.vBool true) []
      [.vInt 1] (by decide) (by decide) (by decide) (by decide) (by decide)⟩

theorem forall₂_mem_left {R : α → β → Prop} :
    ∀ {l1 : List α} {l2 : List β}, List.Forall₂ R l1 l2 →
      ∀ a ∈ l1, ∃ b ∈ l2, R a b := by
  intro l1
  induction l1 with
  | nil => intro l2 _ a ha; cases ha
  | cons x xs ih =>
    intro l2 hf a ha
    cases hf with
    | cons hxy hrest =>
      rcases List.mem_cons.mp ha with h1 | h2
      · subst h1
        exact ⟨_, List.mem_cons_self _ _, hxy⟩
      · obtain ⟨b, hb, hr⟩ := ih hrest a h2
        exact ⟨b, List.mem_cons_of_mem _ hb, hr⟩

/-- C7: a successful `create_table` implies the table name was absent from
the catalog, the raw column list was non-empty, every raw column token is a
well-formed `name:type` pair (non-blank name, name not `ID` in any casing,
type among int/str/bool), the parsed names together with `ID` are pairwise
distinct, and the updated catalog is the old one with the new table appended,
whose schema is `ID:int` first followed by the parsed columns in declaration
order — equivalently, `create_table` fails on a present name, an empty list,
a malformed/blank/reserved/duplicate name or an unknown type. -/
theorem c7_create_table_spec (md : Metadata) (tn : String) (raws : List String)
    (md' : Metadata) (h : create_table md tn raws = .ok md') :
    dictLookup md tn = none ∧ raws ≠ [] ∧
    (∀ raw ∈ raws, wellFormedRaw raw = true) ∧
    ∃ parsed : List Column,
      List.Forall₂ (fun raw col => rawColumnSpec raw = some col) raws parsed ∧
      ((Column.mk "ID" "int" :: parsed).map Column.name).Nodup ∧
      md' = md ++ [(tn, Column.mk "ID" "int" :: parsed)] := by
  unfold create_table at h
  by_cases habs : (dictLookup md tn).isSome = true
  · rw [if_pos habs] at h; cases h
  · rw [if_neg habs] at h
    have habs' : dictLookup md tn = none := by
      cases hl : dictLookup md tn with
      | none => rfl
      | some x => rw [hl] at habs; exact absurd rfl habs
    by_cases hemp : raws.isEmpty = true
    · rw [if_pos hemp] at h; cases h
    · rw [if_neg hemp] at h
      cases hp : _parse_columns raws with
      | error msg => rw [hp] at h; cases h
      | ok parsed =>
        rw [hp] at h
        injection h with h2
        obtain ⟨hall, hnd, hfresh⟩ := parseColumnsAux_ok hp
        refine ⟨habs', fun he => hemp (by rw [he]; rfl), ?_, parsed, ?_, ?_, ?_⟩
        · intro raw hraw
          obtain ⟨col, hcol, hspec⟩ := forall₂_mem_left hall raw hraw
          exact hspec.2
        · exact hall.imp (fun a b hab => hab.1)
        · simp only [List.map_cons, List.nodup_cons]
          refine ⟨?_, hnd⟩
          intro hmem
          rcases List.mem_map.mp hmem with ⟨col, hcol, hname⟩
          exact (hfresh col hcol) (by rw [hname]; exact List.mem_cons_self _ _)
        · rw [← h2]
          exact dictInsert_of_not_mem _ habs'

/-- C7 witness: a concrete successful creation of `users` with columns
`name:str age:int` on an empty catalog. -/
theorem c7_create_table_spec_witness :
    dictLookup ([] : Metadata) "users" = none ∧
    (["name:str", "age:int"] ≠ ([] : List String)) ∧
    (∀ raw ∈ ["name:str", "age:int"], wellFormedRaw raw = true) ∧
    ∃ parsed : List Column,
      List.Forall₂ (fun raw col => rawColumnSpec raw = some col)
        ["name:str", "age:int"] parsed ∧
      ((Column.mk "ID" "int" :: parsed).map Column.name).Nodup ∧
      [("users", [Column.mk "ID" "int", Column.mk "name" "str",
        Column.mk "age" "int"])] =
        [] ++ [("users", Column.mk "ID" "int" :: parsed)] :=
  c7_create_table_spec [] "users" ["name:str", "age:int"]
    [("users", [⟨"ID", "int"⟩, ⟨"name", "str"⟩, ⟨"age", "int"⟩])] (by decide)

/-- C8 counterexample: on input `"a,"` the unquoted-comma split yields the
fragments `"a"` and an empty trailing fragment, so the claim demands failure;
yet `split_csv_values` succeeds with `["a"]`, because the loop only flushes a
final fragment when it contains at least one character. -/
theorem c8_split_counterexample :
    split_csv_values "a," = .ok ["a"] ∧ claimSplitFails "a," = true := by
  decide

/-- C8 (amended): `split_csv_values` splits on commas outside double-quote
pairs and fails exactly when quoting is unbalanced at end of input, when
there are zero kept fragments, or when some kept fragment trims to the empty
string — where the kept fragments are all fields of the split except that a
final field with no characters at all (the aftermath of a trailing comma) is
dropped rather than causing a failure; on success it returns exactly the kept
fragments, trimmed. -/
theorem c8_split_values_amended (s : String) :
    (exceptIsOk (split_csv_values s) =
      (!unbalancedQuotes s && !(specKept s).isEmpty &&
        !(specKept s).any (fun v => v = ""))) ∧
    (∀ vs, split_csv_values s = .ok vs → vs = specKept s) ∧
    (unbalancedQuotes s = true → split_csv_values s = .error unbalancedMsg) ∧
    (unbalancedQuotes s = false →
      ((specKept s).isEmpty || (specKept s).any (fun v => v = "")) = true →
      split_csv_values s = .error emptyValueMsg) := by
  have he := split_csv_values_eq s
  cases h1 : unbalancedQuotes s with
  | true =>
    rw [h1] at he
    rw [if_pos rfl] at he
    refine ⟨?_, ?_, fun _ => he, ?_⟩
    · rw [he]
      rfl
    · intro vs hvs
      rw [he] at hvs
      cases hvs
    · intro hfalse _
      cases hfalse
  | false =>
    rw [h1] at he
    rw [if_neg Bool.false_ne_true] at he
    cases h2 : ((specKept s).isEmpty || (specKept s).any (fun v => v = "")) with
    | true =>
      rw [h2] at he
      rw [if_pos rfl] at he
      refine ⟨?_, ?_, ?_, fun _ _ => he⟩
      · rw [he]
        cases ha : (specKept s).isEmpty with
        | true => simp [exceptIsOk, ha]
        | false =>
          have hb : (specKept s).any (fun v => v = "") = true := by
            rw [ha] at h2
            simpa using h2
          simp [exceptIsOk, ha, hb]
      · intro vs hvs
        rw [he] at hvs
        cases hvs
      · intro hbal
        cases hbal
    | false =>
      rw [h2] at he
      rw [if_neg Bool.false_ne_true] at he
      have hparts := Bool.or_eq_false_iff.mp h2
      refine ⟨?_, ?_, ?_, ?_⟩
      · rw [he]
        simp [exceptIsOk, hparts.1, hparts.2]
      · intro vs hvs
        rw [he] at hvs
        injection hvs with h3
        exact h3.symm
      · intro hbal
        cases hbal
      · intro _ hcond
        cases hcond

/-- C8 witness: the amended characterization at a concrete input — the text
`" x ,y"` splits into the trimmed kept fragments. -/
theorem c8_split_values_amended_witness :
    (["x", "y"] : List String) = specKept " x ,y" :=
  (c8_split_values_amended " x ,y").2.1 ["x", "y"] (by decide)

/-- The cache consultation of `cachedSelect`, unrolled on the key lookup. -/
theorem cachedSelect_eq (cache : List (CacheKey × List Row)) (t : String)
    (wc : Option (String × Value)) (d : List Row) :
    cachedSelect cache t wc d =
      match cacheLookup cache (t, dumpsWhere wc, dumpsData d) with
      | some v => (cache, v)
      | none => (cache ++ [((t, dumpsWhere wc, dumpsData d), select d wc)],
          select d wc) := by
  unfold cachedSelect cache_result
  rfl

/-- C9: the select cache returns a stored entry verbatim (without invoking
the compute function) whenever the exact key — table, dumped predicate,
dataset fingerprint — is present, otherwise computes `select`, stores and
returns it; a second identical read against the unmodified dataset returns
the value of the first; a read whose dataset fingerprint differs (as any
dataset-changing mutation makes it differ — in particular an insert-appended
dataset always has a different fingerprint) recomputes `select` on the
current data, so no stale rows are returned. -/
theorem c9_cache_behaviour (cache : List (CacheKey × List Row)) (t : String)
    (wc : Option (String × Value)) (d : List Row) :
    (∀ v, cacheLookup cache (t, dumpsWhere wc, dumpsData d) = some v →
      cachedSelect cache t wc d = (cache, v)) ∧
    (cacheLookup cache (t, dumpsWhere wc, dumpsData d) = none →
      cachedSelect cache t wc d =
        (cache ++ [((t, dumpsWhere wc, dumpsData d), select d wc)],
          select d wc)) ∧
    ((cachedSelect (cachedSelect cache t wc d).1 t wc d).2 =
      (cachedSelect cache t wc d).2) ∧
    (∀ d' : List Row, dumpsData d ≠ dumpsData d' →
      cacheLookup (cachedSelect cache t wc d).1
        (t, dumpsWhere wc, dumpsData d') = none →
      (cachedSelect (cachedSelect cache t wc d).1 t wc d').2 = select d' wc) ∧
    (∀ r : Row, dumpsData (d ++ [r]) ≠ dumpsData d) := by
  refine ⟨?_, ?_, ?_, ?_, fun r => dumpsData_append_ne d r⟩
  · intro v hv
    rw [cachedSelect_eq, hv]
  · intro hnone
    rw [cachedSelect_eq, hnone]
  · cases hl : cacheLookup cache (t, dumpsWhere wc, dumpsData d) with
    | some v =>
      have h1 : cachedSelect cache t wc d = (cache, v) := by
        rw [cachedSelect_eq, hl]
      rw [h1]
      dsimp only
      rw [h1]
    | none =>
      have h1 : cachedSelect cache t wc d =
          (cache ++ [((t, dumpsWhere wc, dumpsData d), select d wc)],
            select d wc) := by
        rw [cachedSelect_eq, hl]
      rw [h1]
      dsimp only
      have h2 : cacheLookup
          (cache ++ [((t, dumpsWhere wc, dumpsData d), select d wc)])
          (t, dumpsWhere wc, dumpsData d) = some (select d wc) :=
        cacheLookup_append_self cache _ _ hl
      rw [cachedSelect_eq, h2]
  · intro d' hne hfresh
    rw [cachedSelect_eq (cachedSelect cache t wc d).1 t wc d', hfresh]

/-- C9 witness: concrete cache interactions — a hit returns the stored rows
verbatim, a miss on the empty cache stores and returns the computed select,
and concrete distinct fingerprints force recomputation. -/
theorem c9_cache_behaviour_witness :
    cachedSelect [(("t", dumpsWhere none, dumpsData [[("ID", Value.vInt 1)]]),
        [[("a", Value.vInt 9)]])] "t" none [[("ID", Value.vInt 1)]] =
      ([(("t", dumpsWhere none, dumpsData [[("ID", Value.vInt 1)]]),
        [[("a", Value.vInt 9)]])], [[("a", Value.vInt 9)]]) ∧
    (cachedSelect ((cachedSelect [] "t" none [[("ID", Value.vInt 1)]]).1) "t"
        none [[("ID", Value.vInt 1)], [("ID", Value.vInt 2)]]).2 =
      select [[("ID", Value.vInt 1)], [("ID", Value.vInt 2)]] none :=
  ⟨(c9_cache_behaviour [(("t", dumpsWhere none, dumpsData [[("ID", Value.vInt 1)]]),
      [[("a", Value.vInt 9)]])] "t" none [[("ID", Value.vInt 1)]]).1
      [[("a", Value.vInt 9)]] (by decide),
   (c9_cache_behaviour [] "t" none [[("ID", Value.vInt 1)]]).2.2.2.1
      [[("ID", Value.vInt 1)], [("ID", Value.vInt 2)]] (by decide) (by decide)⟩

/-- C10 witness: a concrete successful update rewrites only the matching
row's set column, preserving IDs, other columns, count and order. -/
theorem c10_update_frame_witness :
    ([[("ID", Value.vInt 1), ("b", Value.vInt 7)],
      [("ID", Value.vInt 2), ("b", Value.vInt 6)]] : List Row).length =
      ([[("ID", Value.vInt 1), ("b", Value.vInt 5)],
        [("ID", Value.vInt 2), ("b", Value.vInt 6)]] : List Row).length ∧
    ∃ nwv : Value,
      List.Forall₂ (fun orig new =>
        (pyMatch orig "b" nwv = false → new = orig) ∧
        dictLookup new "ID" = dictLookup orig "ID" ∧
        ∀ col : String, col ≠ "b" →
          dictLookup new col = dictLookup orig col)
        [[("ID", Value.vInt 1), ("b", Value.vInt 5)],
         [("ID", Value.vInt 2), ("b", Value.vInt 6)]]
        [[("ID", Value.vInt 1), ("b", Value.vInt 7)],
         [("ID", Value.vInt 2), ("b", Value.vInt 6)]] :=
  c10_update_frame [("t", [⟨"ID", "int"⟩, ⟨"b", "int"⟩])] "t"
    [[("ID", .vInt 1), ("b", .vInt 5)], [("ID", .vInt 2), ("b", .vInt 6)]]
    ("b", .vInt 7) ("b", .vInt 5)
    [[("ID", .vInt 1), ("b", .vInt 7)], [("ID", .vInt 2), ("b", .vInt 6)]]
    [1] (by decide)

end PDb
